import Mathlib

/-!
Verification development for the Spelling-Bee-Trainer repository
(a browser spelling game: tile-pool generation, round/stage progression
state machine, progress persistence and star scoring).

Modelling conventions:
* JavaScript strings are modelled as `List Char`; `s[i]` is `List.get? i`
  (an out-of-range access yields `undefined`, modelled as `none`).
* `Math.random()` is modelled as an externally supplied rational in `[0, 1)`
  (`UnitRand`); the random id suffixes and the `Array.sort`-based shuffle of
  `generateTilePool` are likewise supplied by the environment (`Rnd`).
* A tile's `letter` is `Option Char`: `poolOfExtras[randomIdx]` on an empty
  array yields `undefined` in JavaScript, modelled as `none`; interpolating
  `undefined` into a template string yields the text "undefined".
* `toUpperCase` is modelled per character (`Char.toUpper`), which agrees with
  JavaScript on the alphabetic characters the game uses.
* React state updates within one event handler are applied sequentially; a
  handler reads the state variables as they were when the handler started.
* Presentational state (the `shake` flag, audio loading flags, confetti and
  audio playback side effects, timers) is outside the model.
-/

/-- TileItem from `types.ts`: `{ id : string, letter : string, isUsed : boolean }`.
The `letter` is `Option Char` because the JavaScript code can put `undefined`
into this field (see `generateTilePool` on a word containing every letter of
the alphabet). -/
structure TileItem where
  id : List Char
  letter : Option Char
  isUsed : Bool
deriving DecidableEq

/-- One random draw: `Math.random()` returns a number in `[0, 1)`. -/
def UnitRand := { q : ℚ // 0 ≤ q ∧ q < 1 }

/-- The randomness consumed by `generateTilePool`: the draws used to pick
decoy letters, the random id suffixes for word and extra tiles
(`Math.random().toString(36).substr(2, 9)`), and the result of
`Array.prototype.sort` with the random comparator `() => Math.random() - 0.5`.
A comparison sort always returns some rearrangement of its input list; which
rearrangement depends on the random comparator results, so the whole sort is
environment-supplied data. -/
structure Rnd where
  picks : Nat → UnitRand
  idSufWord : Nat → List Char
  idSufExtra : Nat → List Char
  shuffle : List TileItem → List TileItem

/-- Modelled from the spec: `ALPHABET` lives in `constants.ts`, which is not
under `src/`; the spec fixes it as "all 26 letters". -/
def ALPHABET : List Char :=
  "ABCDEFGHIJKLMNOPQRSTUVWXYZ".toList

/-- helpers.ts, `generateTilePool` line 5:
`word.toUpperCase().split('').filter(char => /[A-Z]/.test(char))`. -/
def wordLetters (word : List Char) : List Char :=
  (word.map Char.toUpper).filter (fun c => 'A' ≤ c && c ≤ 'Z')

/-- `Math.floor(Math.random() * n)` for a draw `u` and array length `n`. -/
def randomIdx (u : UnitRand) (n : Nat) : Nat :=
  (⌊u.val * (n : ℚ)⌋).toNat

/-- The id of a mandatory tile:
`word-${letter}-${index}-${Math.random().toString(36).substr(2, 9)}`. -/
def wordTileId (c : Char) (i : Nat) (suf : List Char) : List Char :=
  "word-".toList ++ [c] ++ "-".toList ++ (Nat.repr i).toList ++ "-".toList ++ suf

/-- Template-string interpolation of a possibly-`undefined` letter. -/
def optLetterStr : Option Char → List Char
  | some c => [c]
  | none => "undefined".toList

/-- The id of a decoy tile:
`extra-${letter}-${index}-${Math.random().toString(36).substr(2, 9)}`. -/
def extraTileId (l : Option Char) (i : Nat) (suf : List Char) : List Char :=
  "extra-".toList ++ optLetterStr l ++ "-".toList ++ (Nat.repr i).toList
    ++ "-".toList ++ suf

/-- helpers.ts lines 7-11: the mandatory tiles, one per retained character of
the word, in original order, each tagged unused. -/
def wordTiles (rnd : Rnd) (word : List Char) : List TileItem :=
  (wordLetters word).enum.map fun p =>
    { id := wordTileId p.2 p.1 (rnd.idSufWord p.1), letter := some p.2, isUsed := false }

/-- helpers.ts lines 13-14: `ALPHABET.filter(l => !wordSet.has(l))` where
`wordSet = new Set(letters)`. -/
def poolOfExtras (word : List Char) : List Char :=
  ALPHABET.filter fun l => !((wordLetters word).contains l)

/-- helpers.ts lines 15-20: the loop drawing `EXTRA_TILES_COUNT` random decoy
letters; `poolOfExtras[randomIdx]` is an `Option Char` because indexing an
empty array yields `undefined`. `EXTRA_TILES_COUNT` lives in the missing
`constants.ts`, so it is a parameter `extraCount` here. -/
def extraLetters (extraCount : Nat) (rnd : Rnd) (word : List Char) : List (Option Char) :=
  (List.range extraCount).map fun i =>
    (poolOfExtras word)[randomIdx (rnd.picks i) (poolOfExtras word).length]?

/-- helpers.ts lines 22-26: the decoy tiles built from the drawn letters. -/
def extraTiles (extraCount : Nat) (rnd : Rnd) (word : List Char) : List TileItem :=
  (extraLetters extraCount rnd word).enum.map fun p =>
    { id := extraTileId p.2 p.1 (rnd.idSufExtra p.1), letter := p.2, isUsed := false }

/-- The concatenation `[...wordTiles, ...extraTiles]` handed to `.sort`. -/
def baseTilePool (extraCount : Nat) (rnd : Rnd) (word : List Char) : List TileItem :=
  wordTiles rnd word ++ extraTiles extraCount rnd word

/-- helpers.ts lines 4-29, `generateTilePool`:
`[...wordTiles, ...extraTiles].sort(() => Math.random() - 0.5)`. -/
def generateTilePool (extraCount : Nat) (rnd : Rnd) (word : List Char) : List TileItem :=
  rnd.shuffle (baseTilePool extraCount rnd word)

/-- A shuffle function is honest when it returns a rearrangement of its
input, as `Array.prototype.sort` does for any comparator. -/
def PermShuffle (rnd : Rnd) : Prop :=
  ∀ l : List TileItem, (rnd.shuffle l).Perm l

theorem wordTiles_length (rnd : Rnd) (word : List Char) :
    (wordTiles rnd word).length = (wordLetters word).length := by
  simp [wordTiles]

theorem extraTiles_length (extraCount : Nat) (rnd : Rnd) (word : List Char) :
    (extraTiles extraCount rnd word).length = extraCount := by
  simp [extraTiles, extraLetters]

theorem enumFrom_map_snd {α : Type _} (n : Nat) (l : List α) :
    (l.enumFrom n).map Prod.snd = l := by
  induction l generalizing n with
  | nil => rfl
  | cons a l ih => simp [List.enumFrom, ih]

theorem wordTiles_letters (rnd : Rnd) (word : List Char) :
    (wordTiles rnd word).map (fun t => t.letter) = (wordLetters word).map some := by
  simp only [wordTiles, List.map_map]
  show List.map (some ∘ Prod.snd) (wordLetters word).enum = _
  rw [← List.map_map, List.enum, enumFrom_map_snd]

/-- C3: for every word, `generate` returns `len(filtered W) + EXTRA_TILES_COUNT`
tiles: a rearrangement of the mandatory tiles (whose letters spell the
uppercase-alphabetic-filtered word, in original order) followed by
`EXTRA_TILES_COUNT` decoy tiles. -/
theorem generateTilePool_spec (extraCount : Nat) (rnd : Rnd)
    (word : List Char) (hsh : PermShuffle rnd) :
    (generateTilePool extraCount rnd word).length
        = (wordLetters word).length + extraCount
    ∧ (generateTilePool extraCount rnd word).Perm
        (wordTiles rnd word ++ extraTiles extraCount rnd word)
    ∧ (wordTiles rnd word).map (fun t => t.letter)
        = (wordLetters word).map some
    ∧ (extraTiles extraCount rnd word).length = extraCount
    ∧ (∀ t ∈ wordTiles rnd word, "word-".toList <+: t.id)
    ∧ (∀ t ∈ extraTiles extraCount rnd word, "extra-".toList <+: t.id) := by
  refine ⟨?_, hsh _, wordTiles_letters rnd word, extraTiles_length extraCount rnd word, ?_, ?_⟩
  · have := (hsh (baseTilePool extraCount rnd word)).length_eq
    simp only [generateTilePool]
    rw [this]
    simp [baseTilePool, wordTiles_length, extraTiles_length]
  · intro t ht
    simp only [wordTiles, List.mem_map] at ht
    obtain ⟨p, -, rfl⟩ := ht
    simp only [wordTileId, List.append_assoc]
    exact ⟨_, rfl⟩
  · intro t ht
    simp only [extraTiles, List.mem_map] at ht
    obtain ⟨p, -, rfl⟩ := ht
    simp only [extraTileId, List.append_assoc]
    exact ⟨_, rfl⟩

/-- C4: every decoy tile's letter avoids the cleaned word entirely. Decoy
tiles are recognised by their `extra-` id tag; mandatory tiles carry a
`word-` tag, so the two groups never overlap. -/
theorem generateTilePool_decoys_outside_word (extraCount : Nat) (rnd : Rnd)
    (word : List Char) (hsh : PermShuffle rnd) :
    ∀ t ∈ generateTilePool extraCount rnd word, "extra-".toList <+: t.id →
      ∀ c : Char, t.letter = some c → c ∉ wordLetters word := by
  intro t ht hpre c hc
  have hmem : t ∈ baseTilePool extraCount rnd word := (hsh _).mem_iff.mp ht
  rcases List.mem_append.mp hmem with hw | he
  · simp only [wordTiles, List.mem_map] at hw
    obtain ⟨p, -, rfl⟩ := hw
    obtain ⟨s, hs⟩ := hpre
    have h := congrArg (fun l => l.head?) hs
    simp [wordTileId] at h
  · simp only [extraTiles, List.mem_map] at he
    obtain ⟨p, hp, rfl⟩ := he
    simp only at hc
    have hp2 : p.2 ∈ extraLetters extraCount rnd word := by
      have := List.mem_map_of_mem Prod.snd hp
      rwa [List.enum, enumFrom_map_snd] at this
    simp only [extraLetters, List.mem_map] at hp2
    obtain ⟨i, -, hi⟩ := hp2
    rw [hc, ← List.get?_eq_getElem?] at hi
    have hcmem : c ∈ poolOfExtras word := List.get?_mem hi
    simp only [poolOfExtras, List.mem_filter] at hcmem
    intro hcw
    have h2 := hcmem.2
    simp [hcw] at h2

/-- A concrete environment: every draw is 0, id suffixes are empty, and the
sort leaves the order unchanged (one possible comparator outcome). -/
def demoRnd : Rnd where
  picks := fun _ => ⟨0, by norm_num⟩
  idSufWord := fun _ => []
  idSufExtra := fun _ => []
  shuffle := id

theorem demoRnd_perm : PermShuffle demoRnd := fun _ => List.Perm.refl _

theorem generateTilePool_spec_witness :
    PermShuffle demoRnd
    ∧ ((generateTilePool 3 demoRnd "CAT".toList).length
          = (wordLetters "CAT".toList).length + 3
       ∧ (generateTilePool 3 demoRnd "CAT".toList).Perm
          (wordTiles demoRnd "CAT".toList ++ extraTiles 3 demoRnd "CAT".toList)
       ∧ (wordTiles demoRnd "CAT".toList).map (fun t => t.letter)
          = (wordLetters "CAT".toList).map some
       ∧ (extraTiles 3 demoRnd "CAT".toList).length = 3
       ∧ (∀ t ∈ wordTiles demoRnd "CAT".toList, "word-".toList <+: t.id)
       ∧ (∀ t ∈ extraTiles 3 demoRnd "CAT".toList, "extra-".toList <+: t.id)) :=
  ⟨demoRnd_perm, generateTilePool_spec 3 demoRnd "CAT".toList demoRnd_perm⟩

theorem generateTilePool_decoys_witness :
    PermShuffle demoRnd
    ∧ (∀ t ∈ generateTilePool 3 demoRnd "CAT".toList, "extra-".toList <+: t.id →
        ∀ c : Char, t.letter = some c → c ∉ wordLetters "CAT".toList) :=
  ⟨demoRnd_perm,
   generateTilePool_decoys_outside_word 3 demoRnd "CAT".toList demoRnd_perm⟩

/-- A word whose cleaned form covers the whole alphabet, leaving the decoy
candidate pool empty. -/
def pangram : List Char := "THEQUICKBROWNFOXJUMPSOVERTHELAZYDOG".toList

/-- C7 (evaluation at the failing input): on a word covering the alphabet the
decoy candidate pool is empty, yet the code still emits `EXTRA_TILES_COUNT`
decoy tiles, each carrying `undefined` (`poolOfExtras[randomIdx]` on an empty
array) instead of an alphabetic letter — it neither fails fast nor degrades
to zero decoys. This also contradicts `TileItem.letter : string` in types.ts. -/
theorem generateTilePool_pangram_eval :
    poolOfExtras pangram = []
    ∧ (generateTilePool 3 demoRnd pangram).length = 35 + 3
    ∧ ((generateTilePool 3 demoRnd pangram).filter
        (fun t => decide ("extra-".toList <+: t.id))).length = 3
    ∧ ∀ t ∈ generateTilePool 3 demoRnd pangram,
        "extra-".toList <+: t.id → t.letter = none := by
  decide

/-- RoundStats from types.ts (with the `skipped` flag used by all stage
variants): one finished round's outcome. -/
structure RoundStats where
  word : List Char
  mistakes : Nat
  timeSpent : Nat
  skipped : Bool
deriving DecidableEq

/-- StageProgress as persisted: `{ stars, isUnlocked, correctCount }`. -/
structure StageProgress where
  stars : Nat
  isUnlocked : Bool
  correctCount : Nat
deriving DecidableEq

/-- `history.filter(h => !h.skipped).length`. -/
def correctCount (history : List RoundStats) : Nat :=
  (history.filter fun h => !h.skipped).length

/-- The star computation shared by `calculateStageResults` (part_000 lines
206-212) and `handleStageEnd` (App.tsx lines 542-547):
`let stars = 0; if (correctCount === 10) stars = 3; else if (correctCount >= 7)
stars = 2; else if (correctCount >= 3) stars = 1;`. -/
def stageStars (history : List RoundStats) : Nat :=
  let correct := correctCount history
  if correct = 10 then 3
  else if 7 ≤ correct then 2
  else if 3 ≤ correct then 1
  else 0

/-- Modelled from the spec's interval phrasing of the scoring rule:
correct=10 gives 3; correct in [7,9] gives 2; in [3,6] gives 1; in [0,2]
gives 0. -/
def specStars (correct : Nat) : Nat :=
  if correct = 10 then 3
  else if 7 ≤ correct ∧ correct ≤ 9 then 2
  else if 3 ≤ correct ∧ correct ≤ 6 then 1
  else 0

/-- C1: for a completed stage's history (10 rounds), the stars computed at
stage end are a pure function of the non-skipped count, with the spec's
exact thresholds. -/
theorem stageStars_spec (history : List RoundStats) (hlen : history.length = 10) :
    stageStars history = specStars (correctCount history) := by
  have hle : correctCount history ≤ 10 := by
    have := List.length_filter_le (fun h => !h.skipped) history
    simp only [correctCount]
    omega
  simp only [stageStars, specStars]
  split_ifs <;> omega

/-- A 10-round history with 8 wins and 2 skips (the spec's own example). -/
def demoHistory8 : List RoundStats :=
  List.replicate 8 { word := "CAT".toList, mistakes := 0, timeSpent := 1, skipped := false }
    ++ List.replicate 2 { word := "DOG".toList, mistakes := 0, timeSpent := 0, skipped := true }

theorem stageStars_spec_witness :
    demoHistory8.length = 10
    ∧ stageStars demoHistory8 = specStars (correctCount demoHistory8)
    ∧ stageStars demoHistory8 = 2 :=
  ⟨by decide, stageStars_spec demoHistory8 (by decide), by decide⟩

/-- The progress merge shared by `handleStageEnd` (App.tsx lines 551-564) and
`calculateStageResults` (part_000 lines 213-225): raise the finished stage's
stars and best-correct-count to the new values when better, and unlock the
next stage when at least one star was earned. `next[i]` is `get? i`; the UI
only ever finishes stages 0..9 of the length-10 progress list, so the
out-of-range case (which would throw in JavaScript) is modelled as a no-op. -/
def applyStageEnd (prog : List StageProgress) (stageIdx : Nat)
    (history : List RoundStats) : List StageProgress :=
  let stars := stageStars history
  let correct := correctCount history
  let prog1 := match prog[stageIdx]? with
    | none => prog
    | some st => prog.set stageIdx
        { st with stars := if st.stars < stars then stars else st.stars,
                  correctCount := max st.correctCount correct }
  if 1 ≤ stars ∧ stageIdx < 9 then
    match prog1[stageIdx + 1]? with
    | none => prog1
    | some st => prog1.set (stageIdx + 1) { st with isUnlocked := true }
  else prog1

/-- Pointwise domination of stage records: unlocked stays unlocked, stars and
best-correct-count do not decrease. -/
def ProgressLE (p q : StageProgress) : Prop :=
  (p.isUnlocked = true → q.isUnlocked = true)
  ∧ p.stars ≤ q.stars ∧ p.correctCount ≤ q.correctCount

theorem ProgressLE.rfl (p : StageProgress) : ProgressLE p p :=
  ⟨fun h => h, le_refl _, le_refl _⟩

theorem ProgressLE.trans {p q r : StageProgress}
    (h1 : ProgressLE p q) (h2 : ProgressLE q r) : ProgressLE p r :=
  ⟨fun h => h2.1 (h1.1 h), h1.2.1.trans h2.2.1, h1.2.2.trans h2.2.2⟩

theorem forall₂_progressLE_refl (l : List StageProgress) :
    List.Forall₂ ProgressLE l l :=
  List.forall₂_same.mpr fun p _ => ProgressLE.rfl p

theorem forall₂_progressLE_set (l : List StageProgress) (i : Nat)
    (p x : StageProgress) (hget : l[i]? = some p) (hle : ProgressLE p x) :
    List.Forall₂ ProgressLE l (l.set i x) := by
  induction l generalizing i with
  | nil => simp at hget
  | cons a l ih =>
    cases i with
    | zero =>
      rw [List.getElem?_cons_zero] at hget
      cases hget
      exact List.Forall₂.cons hle (forall₂_progressLE_refl l)
    | succ i =>
      rw [List.getElem?_cons_succ] at hget
      exact List.Forall₂.cons (ProgressLE.rfl a) (ih i hget)

theorem forall₂_progressLE_trans {l m n : List StageProgress}
    (h1 : List.Forall₂ ProgressLE l m) (h2 : List.Forall₂ ProgressLE m n) :
    List.Forall₂ ProgressLE l n := by
  induction h1 generalizing n with
  | nil => cases h2; exact List.Forall₂.nil
  | cons h hs ih =>
    cases h2 with
    | cons h' hs' => exact List.Forall₂.cons (h.trans h') (ih hs')

/-- One stage-end merge never degrades any stored record. -/
theorem applyStageEnd_monotone (prog : List StageProgress) (stageIdx : Nat)
    (history : List RoundStats) :
    List.Forall₂ ProgressLE prog (applyStageEnd prog stageIdx history) := by
  simp only [applyStageEnd]
  have step1 : ∀ prog1 : List StageProgress,
      (List.Forall₂ ProgressLE prog prog1) →
      List.Forall₂ ProgressLE prog
        (if 1 ≤ stageStars history ∧ stageIdx < 9 then
          match prog1[stageIdx + 1]? with
          | none => prog1
          | some st => prog1.set (stageIdx + 1) { st with isUnlocked := true }
        else prog1) := by
    intro prog1 h1
    split
    · cases hg : prog1[stageIdx + 1]? with
      | none => simpa [hg] using h1
      | some st =>
        simp only [hg]
        refine forall₂_progressLE_trans h1 (forall₂_progressLE_set _ _ _ _ hg ?_)
        exact ⟨fun _ => Eq.refl true, le_refl _, le_refl _⟩
    · exact h1
  apply step1
  cases hg : prog[stageIdx]? with
  | none => exact forall₂_progressLE_refl prog
  | some st =>
    refine forall₂_progressLE_set _ _ _ _ hg ?_
    refine ⟨fun h => h, ?_, le_max_left _ _⟩
    dsimp only
    split <;> omega

/-- GameState from types.ts, with the STAGE_SELECT mode used by the staged
variants. -/
inductive GameState where
  | START
  | STAGE_SELECT
  | PLAYING
  | CELEBRATING
  | GAME_OVER
deriving DecidableEq

/-- WordData from types.ts: a catalog entry. -/
structure WordData where
  word : List Char
  audio : List Char
deriving DecidableEq

def WORDS_PER_STAGE : Nat := 10

/-- The React state of the staged game variants (App.tsx lines 436-448,
part_000 lines 75-94). `startTime` is `Date.now()` in milliseconds; the
presentational `shake` and audio flags are outside the model. -/
structure AppState where
  gameState : GameState
  currentStageIdx : Nat
  currentWordInStageIdx : Nat
  userTyped : List Char
  tilePool : List TileItem
  mistakes : Nat
  startTime : Nat
  sessionHistory : List RoundStats
  stagesProgress : List StageProgress
deriving DecidableEq

/-- `const currentWord = WORDS[globalWordIdx]?.word.toUpperCase() || ''`. -/
def currentWordOf (WORDS : List WordData) (s : AppState) : List Char :=
  match WORDS[s.currentStageIdx * WORDS_PER_STAGE + s.currentWordInStageIdx]? with
  | some w => w.word.map Char.toUpper
  | none => []

/-- `Math.round(ms / 1000)` for a nonnegative millisecond count. -/
def jsRound1000 (ms : Nat) : Nat := (ms + 500) / 1000

/-- part_000 lines 157-172, `initRound`: the caller has already stored the
new stage/word indices in the state; this resets the round (fresh tile pool,
empty typed string, zero mistakes) or ends the game when the global word
index runs past the catalog. -/
def initRoundV1 (WORDS : List WordData) (extraCount : Nat) (rnd : Rnd)
    (now : Nat) (stageIdx wordIdx : Nat) (s : AppState) : AppState :=
  match WORDS[stageIdx * WORDS_PER_STAGE + wordIdx]? with
  | none => { s with gameState := GameState.GAME_OVER }
  | some w =>
      { s with tilePool := generateTilePool extraCount rnd (w.word.map Char.toUpper)
             , userTyped := []
             , mistakes := 0
             , startTime := now
             , gameState := GameState.PLAYING }

/-- part_000 lines 206-227, `calculateStageResults`: merge the stage result
into progress and show the game-over screen. -/
def calculateStageResultsV1 (history : List RoundStats) (s : AppState) : AppState :=
  { s with stagesProgress := applyStageEnd s.stagesProgress s.currentStageIdx history
         , gameState := GameState.GAME_OVER }

/-- part_000 lines 174-204, `finishWord`: record the round outcome, then
either advance (skip), celebrate (win of a non-final word), or compute the
stage results (final word). -/
def finishWordV1 (WORDS : List WordData) (extraCount : Nat) (rnd : Rnd)
    (now : Nat) (isSkip : Bool) (s : AppState) : AppState :=
  let stat : RoundStats :=
    { word := currentWordOf WORDS s
      mistakes := if isSkip then 0 else s.mistakes
      timeSpent := if isSkip then 0 else jsRound1000 (now - s.startTime)
      skipped := isSkip }
  let updatedHistory := s.sessionHistory ++ [stat]
  let s1 := { s with sessionHistory := updatedHistory }
  let nextIdx := s.currentWordInStageIdx + 1
  if nextIdx < WORDS_PER_STAGE then
    if isSkip then
      initRoundV1 WORDS extraCount rnd now s.currentStageIdx nextIdx
        { s1 with currentWordInStageIdx := nextIdx }
    else { s1 with gameState := GameState.CELEBRATING }
  else calculateStageResultsV1 updatedHistory s1

/-- part_000 lines 243-256, `handleTileClick`: ignore clicks outside an
active round or on a used tile; a matching letter extends the typed string
and uses up that tile (finishing the word when complete); a mismatch only
increments the mistake counter. -/
def handleTileClickV1 (WORDS : List WordData) (extraCount : Nat) (rnd : Rnd)
    (now : Nat) (i : Nat) (s : AppState) : AppState :=
  match s.tilePool[i]? with
  | none => s
  | some tile =>
    if s.gameState ≠ GameState.PLAYING ∨ tile.isUsed = true then s
    else
      let cw := currentWordOf WORDS s
      if tile.letter = cw[s.userTyped.length]? then
        let nextTyped := s.userTyped ++ optLetterStr tile.letter
        let s1 := { s with userTyped := nextTyped
                         , tilePool := s.tilePool.map fun t =>
                             if t.id = tile.id then { t with isUsed := true } else t }
        if nextTyped = cw then finishWordV1 WORDS extraCount rnd now false s1 else s1
      else { s with mistakes := s.mistakes + 1 }

/-- part_000 lines 229-233, `nextWord` (no range check on the incremented
index; only reachable from the celebration screen). -/
def nextWordV1 (WORDS : List WordData) (extraCount : Nat) (rnd : Rnd)
    (now : Nat) (s : AppState) : AppState :=
  let nextIdx := s.currentWordInStageIdx + 1
  initRoundV1 WORDS extraCount rnd now s.currentStageIdx nextIdx
    { s with currentWordInStageIdx := nextIdx }

/-- part_000 lines 235-241, `selectStage`: refuse locked stages, otherwise
reset the session and start at word 0 of the chosen stage. The stage-select
grid renders one button per progress entry, so `idx` is always in range; an
out-of-range index is modelled as a no-op. -/
def selectStageV1 (WORDS : List WordData) (extraCount : Nat) (rnd : Rnd)
    (now : Nat) (idx : Nat) (s : AppState) : AppState :=
  match s.stagesProgress[idx]? with
  | none => s
  | some p =>
    if p.isUnlocked then
      initRoundV1 WORDS extraCount rnd now idx 0
        { s with currentStageIdx := idx, currentWordInStageIdx := 0, sessionHistory := [] }
    else s

/-- A user interaction, carrying the wall clock and the randomness the
resulting handler may consume. -/
inductive GameEvent where
  | startClick
  | homeClick
  | selectStage (idx : Nat) (now : Nat) (rnd : Rnd)
  | tileClick (i : Nat) (now : Nat) (rnd : Rnd)
  | skipClick (now : Nat) (rnd : Rnd)
  | nextWordClick (now : Nat) (rnd : Rnd)
  | quitClick
  | backToStages
  | replayClick (now : Nat) (rnd : Rnd)

/-- One user event of the part_000 variant. Each button exists only on its
own screen, so an event arriving in any other `gameState` leaves the state
unchanged. -/
def stepV1 (WORDS : List WordData) (extraCount : Nat)
    (s : AppState) (e : GameEvent) : AppState :=
  match e with
  | .startClick =>
      if s.gameState = GameState.START then { s with gameState := GameState.STAGE_SELECT } else s
  | .homeClick =>
      if s.gameState = GameState.STAGE_SELECT then { s with gameState := GameState.START } else s
  | .selectStage idx now rnd =>
      if s.gameState = GameState.STAGE_SELECT then selectStageV1 WORDS extraCount rnd now idx s else s
  | .tileClick i now rnd => handleTileClickV1 WORDS extraCount rnd now i s
  | .skipClick now rnd =>
      if s.gameState = GameState.PLAYING then finishWordV1 WORDS extraCount rnd now true s else s
  | .nextWordClick now rnd =>
      if s.gameState = GameState.CELEBRATING then nextWordV1 WORDS extraCount rnd now s else s
  | .quitClick =>
      if s.gameState = GameState.PLAYING then { s with gameState := GameState.STAGE_SELECT } else s
  | .backToStages =>
      if s.gameState = GameState.GAME_OVER then { s with gameState := GameState.STAGE_SELECT } else s
  | .replayClick now rnd =>
      if s.gameState = GameState.GAME_OVER then selectStageV1 WORDS extraCount rnd now s.currentStageIdx s else s

/-- App.tsx lines 542-567, `handleStageEnd`. Within one event handler every
read of `sessionHistory` yields the value the handler closed over, so the
history to score is an explicit argument `h0` here. -/
def handleStageEndV2 (stageIdx : Nat) (h0 : List RoundStats) (s : AppState) : AppState :=
  { s with stagesProgress := applyStageEnd s.stagesProgress stageIdx h0
         , gameState := GameState.GAME_OVER }

/-- App.tsx lines 521-540, `initRound` (the variant whose out-of-range guard
calls `handleStageEnd(stageIdx)`); `h0` is the `sessionHistory` the running
event handler closed over. -/
def initRoundV2 (WORDS : List WordData) (extraCount : Nat) (rnd : Rnd)
    (now : Nat) (h0 : List RoundStats) (stageIdx wordIdx : Nat) (s : AppState) : AppState :=
  if h : WORDS.length ≤ stageIdx * WORDS_PER_STAGE + wordIdx ∨ WORDS_PER_STAGE ≤ wordIdx then
    handleStageEndV2 stageIdx h0 s
  else
    let w := WORDS.get ⟨stageIdx * WORDS_PER_STAGE + wordIdx, by simp [not_or] at h; omega⟩
    { s with tilePool := generateTilePool extraCount rnd (w.word.map Char.toUpper)
           , userTyped := []
           , mistakes := 0
           , startTime := now
           , gameState := GameState.PLAYING }

/-- App.tsx lines 569-587, `handleWin`: record the win and celebrate —
whatever the word index. -/
def handleWinV2 (WORDS : List WordData) (now : Nat) (s : AppState) : AppState :=
  let stat : RoundStats :=
    { word := currentWordOf WORDS s
      mistakes := s.mistakes
      timeSpent := jsRound1000 (now - s.startTime)
      skipped := false }
  { s with sessionHistory := s.sessionHistory ++ [stat]
         , gameState := GameState.CELEBRATING }

/-- App.tsx lines 589-605, `skipWord`: record the skip, then advance or end
the stage. `handleStageEnd` still sees the pre-append history (a React
closure), which scores identically since the dropped entry is a skip. -/
def skipWordV2 (WORDS : List WordData) (extraCount : Nat) (rnd : Rnd)
    (now : Nat) (s : AppState) : AppState :=
  let stat : RoundStats :=
    { word := currentWordOf WORDS s, mistakes := 0, timeSpent := 0, skipped := true }
  let s1 := { s with sessionHistory := s.sessionHistory ++ [stat] }
  let nextIdx := s.currentWordInStageIdx + 1
  if nextIdx < WORDS_PER_STAGE then
    initRoundV2 WORDS extraCount rnd now s.sessionHistory s.currentStageIdx nextIdx
      { s1 with currentWordInStageIdx := nextIdx }
  else handleStageEndV2 s.currentStageIdx s.sessionHistory s1

/-- App.tsx lines 607-615, `nextWord` (range-checked). -/
def nextWordV2 (WORDS : List WordData) (extraCount : Nat) (rnd : Rnd)
    (now : Nat) (s : AppState) : AppState :=
  let nextIdx := s.currentWordInStageIdx + 1
  if nextIdx < WORDS_PER_STAGE then
    initRoundV2 WORDS extraCount rnd now s.sessionHistory s.currentStageIdx nextIdx
      { s with currentWordInStageIdx := nextIdx }
  else handleStageEndV2 s.currentStageIdx s.sessionHistory s

/-- App.tsx lines 617-623, `selectStage`. -/
def selectStageV2 (WORDS : List WordData) (extraCount : Nat) (rnd : Rnd)
    (now : Nat) (idx : Nat) (s : AppState) : AppState :=
  match s.stagesProgress[idx]? with
  | none => s
  | some p =>
    if p.isUnlocked then
      initRoundV2 WORDS extraCount rnd now s.sessionHistory idx 0
        { s with currentStageIdx := idx, currentWordInStageIdx := 0, sessionHistory := [] }
    else s

/-- App.tsx lines 625-640 (identically lines 1079-1091), `handleTileClick`:
same structure as the part_000 variant, but a completed word goes through
`handleWin`. -/
def handleTileClickV2 (WORDS : List WordData) (now : Nat) (i : Nat) (s : AppState) : AppState :=
  match s.tilePool[i]? with
  | none => s
  | some tile =>
    if s.gameState ≠ GameState.PLAYING ∨ tile.isUsed = true then s
    else
      let cw := currentWordOf WORDS s
      if tile.letter = cw[s.userTyped.length]? then
        let nextTyped := s.userTyped ++ optLetterStr tile.letter
        let s1 := { s with userTyped := nextTyped
                         , tilePool := s.tilePool.map fun t =>
                             if t.id = tile.id then { t with isUsed := true } else t }
        if nextTyped = cw then handleWinV2 WORDS now s1 else s1
      else { s with mistakes := s.mistakes + 1 }

/-- One user event of the App.tsx variant. -/
def stepV2 (WORDS : List WordData) (extraCount : Nat)
    (s : AppState) (e : GameEvent) : AppState :=
  match e with
  | .startClick =>
      if s.gameState = GameState.START then { s with gameState := GameState.STAGE_SELECT } else s
  | .homeClick =>
      if s.gameState = GameState.STAGE_SELECT then { s with gameState := GameState.START } else s
  | .selectStage idx now rnd =>
      if s.gameState = GameState.STAGE_SELECT then selectStageV2 WORDS extraCount rnd now idx s else s
  | .tileClick i now _ => handleTileClickV2 WORDS now i s
  | .skipClick now rnd =>
      if s.gameState = GameState.PLAYING then skipWordV2 WORDS extraCount rnd now s else s
  | .nextWordClick now rnd =>
      if s.gameState = GameState.CELEBRATING then nextWordV2 WORDS extraCount rnd now s else s
  | .quitClick =>
      if s.gameState = GameState.PLAYING then { s with gameState := GameState.STAGE_SELECT } else s
  | .backToStages =>
      if s.gameState = GameState.GAME_OVER then { s with gameState := GameState.STAGE_SELECT } else s
  | .replayClick now rnd =>
      if s.gameState = GameState.GAME_OVER then selectStageV2 WORDS extraCount rnd now s.currentStageIdx s else s

/-- The initial stages progress (App.tsx lines 451-455): only stage 0
unlocked, all stars and best counts 0. -/
def defaultStagesProgress : List StageProgress :=
  (List.range 10).map fun i => { stars := 0, isUnlocked := i == 0, correctCount := 0 }

/-- The freshly-loaded application state (first run). -/
def initialState : AppState :=
  { gameState := GameState.START
    currentStageIdx := 0
    currentWordInStageIdx := 0
    userTyped := []
    tilePool := []
    mistakes := 0
    startTime := 0
    sessionHistory := []
    stagesProgress := defaultStagesProgress }

set_option maxRecDepth 8000

/-- C5 (amended): winning the tenth word of a stage ends the stage, but the
two variants disagree on the intermediate screen: the part_000 variant
(`finishWord`) jumps straight from Playing to GameOver, while the App.tsx
variant (`handleWin`) first enters Celebrating for the final word as well,
reaching GameOver only on the subsequent "next word" advance. -/
theorem lastWordWin_transition (WORDS : List WordData) (extraCount : Nat)
    (rnd rnd2 : Rnd) (now now2 : Nat) (i : Nat) (s : AppState)
    (tile : TileItem) (c : Char)
    (hplay : s.gameState = GameState.PLAYING)
    (hlast : s.currentWordInStageIdx = 9)
    (htile : s.tilePool.get? i = some tile)
    (hunused : tile.isUsed = false)
    (hletter : tile.letter = some c)
    (hwin : s.userTyped ++ [c] = currentWordOf WORDS s) :
    (stepV1 WORDS extraCount s (GameEvent.tileClick i now rnd)).gameState
        = GameState.GAME_OVER
    ∧ (stepV2 WORDS extraCount s (GameEvent.tileClick i now rnd)).gameState
        = GameState.CELEBRATING
    ∧ (stepV2 WORDS extraCount
          (stepV2 WORDS extraCount s (GameEvent.tileClick i now rnd))
          (GameEvent.nextWordClick now2 rnd2)).gameState
        = GameState.GAME_OVER := by
  have hchar : (currentWordOf WORDS s).get? s.userTyped.length = some c := by
    rw [← hwin]
    rw [List.get?_eq_getElem?]
    exact List.getElem?_concat_length _ _
  simp only [List.get?_eq_getElem?] at htile hchar
  refine ⟨?_, ?_, ?_⟩
  · simp [stepV1, handleTileClickV1, finishWordV1, calculateStageResultsV1,
      htile, hplay, hunused, hletter, hchar, optLetterStr, hwin, hlast, WORDS_PER_STAGE]
  · simp [stepV2, handleTileClickV2, handleWinV2,
      htile, hplay, hunused, hletter, hchar, optLetterStr, hwin, hlast, WORDS_PER_STAGE]
  · simp [stepV2, handleTileClickV2, handleWinV2, nextWordV2, handleStageEndV2,
      htile, hplay, hunused, hletter, hchar, optLetterStr, hwin, hlast, WORDS_PER_STAGE]

/-- A demo catalog standing in for the missing `constants.ts` word list (the
spec fixes 100 words in 10 stages; the transition structure under test does
not depend on which words they are). -/
def demoWords : List WordData := List.replicate 100 { word := ['A'], audio := [] }

def demoClick : GameEvent := GameEvent.tileClick 0 0 demoRnd

def demoAdvance : GameEvent := GameEvent.nextWordClick 0 demoRnd

/-- Start the app, pick stage 1, then win and advance through its first nine
words, leaving the player on the stage's tenth word. -/
def demoPlayPre : List GameEvent :=
  [GameEvent.startClick, GameEvent.selectStage 0 0 demoRnd]
    ++ (List.replicate 9 [demoClick, demoAdvance]).flatten

/-- C5 counterexample: a concrete App.tsx-variant play-through of stage 1.
After nine wins and advances the machine is Playing on word index 9 (the
stage's last word); winning it puts the machine in Celebrating, not
GameOver, contradicting the claimed direct Playing-to-GameOver transition. -/
theorem lastWordWin_counterexample :
    (demoPlayPre.foldl (stepV2 demoWords 0) initialState).gameState = GameState.PLAYING
    ∧ (demoPlayPre.foldl (stepV2 demoWords 0) initialState).currentWordInStageIdx = 9
    ∧ ((demoPlayPre ++ [demoClick]).foldl (stepV2 demoWords 0) initialState).gameState
        = GameState.CELEBRATING := by
  decide

/-- A hand-built Playing state on the last word of stage 1, one letter from
completion. -/
def lastWordState : AppState :=
  { gameState := GameState.PLAYING
    currentStageIdx := 0
    currentWordInStageIdx := 9
    userTyped := []
    tilePool := [{ id := "t1".toList, letter := some 'A', isUsed := false }]
    mistakes := 0
    startTime := 0
    sessionHistory := []
    stagesProgress := defaultStagesProgress }

theorem lastWordWin_transition_witness :
    lastWordState.gameState = GameState.PLAYING
    ∧ lastWordState.currentWordInStageIdx = 9
    ∧ ((stepV1 demoWords 0 lastWordState (GameEvent.tileClick 0 0 demoRnd)).gameState
          = GameState.GAME_OVER
       ∧ (stepV2 demoWords 0 lastWordState (GameEvent.tileClick 0 0 demoRnd)).gameState
          = GameState.CELEBRATING
       ∧ (stepV2 demoWords 0
            (stepV2 demoWords 0 lastWordState (GameEvent.tileClick 0 0 demoRnd))
            (GameEvent.nextWordClick 0 demoRnd)).gameState
          = GameState.GAME_OVER) :=
  ⟨by decide, by decide,
   lastWordWin_transition demoWords 0 demoRnd demoRnd 0 0 0 lastWordState
     { id := "t1".toList, letter := some 'A', isUsed := false } 'A'
     (by decide) (by decide) (by decide) (by decide) (by decide) (by decide)⟩

/-- C8: in an active round, clicking an unused tile whose letter differs from
the target word's character at position `len(typedPrefix)` only increments
the mistake counter: the typed prefix, the whole tile pool (in particular the
clicked tile, which stays unused and selectable) and all other state are
unchanged, in both variants. -/
theorem wrongTile_frame (WORDS : List WordData) (extraCount : Nat) (rnd : Rnd)
    (now : Nat) (i : Nat) (s : AppState) (tile : TileItem)
    (hplay : s.gameState = GameState.PLAYING)
    (htile : s.tilePool.get? i = some tile)
    (hunused : tile.isUsed = false)
    (hdiff : tile.letter ≠ (currentWordOf WORDS s).get? s.userTyped.length) :
    stepV1 WORDS extraCount s (GameEvent.tileClick i now rnd)
        = { s with mistakes := s.mistakes + 1 }
    ∧ stepV2 WORDS extraCount s (GameEvent.tileClick i now rnd)
        = { s with mistakes := s.mistakes + 1 }
    ∧ (stepV1 WORDS extraCount s (GameEvent.tileClick i now rnd)).userTyped = s.userTyped
    ∧ (stepV1 WORDS extraCount s (GameEvent.tileClick i now rnd)).tilePool = s.tilePool
    ∧ (stepV1 WORDS extraCount s (GameEvent.tileClick i now rnd)).tilePool.get? i
        = some tile := by
  simp only [List.get?_eq_getElem?] at htile hdiff
  refine ⟨?_, ?_, ?_, ?_, ?_⟩ <;>
    simp [stepV1, stepV2, handleTileClickV1, handleTileClickV2, htile, hplay, hunused, hdiff]

/-- A Playing state mid-word: typed "CA" of target "CAT", with a wrong tile
available (spec scenario C, stage 1 word 1 targeting "CAT"). -/
def demoWordsCat : List WordData := List.replicate 100 { word := "CAT".toList, audio := [] }

def wrongTileState : AppState :=
  { gameState := GameState.PLAYING
    currentStageIdx := 0
    currentWordInStageIdx := 0
    userTyped := "CA".toList
    tilePool := [{ id := "t1".toList, letter := some 'X', isUsed := false }]
    mistakes := 0
    startTime := 0
    sessionHistory := []
    stagesProgress := defaultStagesProgress }

theorem wrongTile_frame_witness :
    wrongTileState.gameState = GameState.PLAYING
    ∧ (stepV1 demoWordsCat 0 wrongTileState (GameEvent.tileClick 0 0 demoRnd)
          = { wrongTileState with mistakes := wrongTileState.mistakes + 1 }
       ∧ stepV2 demoWordsCat 0 wrongTileState (GameEvent.tileClick 0 0 demoRnd)
          = { wrongTileState with mistakes := wrongTileState.mistakes + 1 }
       ∧ (stepV1 demoWordsCat 0 wrongTileState (GameEvent.tileClick 0 0 demoRnd)).userTyped
          = wrongTileState.userTyped
       ∧ (stepV1 demoWordsCat 0 wrongTileState (GameEvent.tileClick 0 0 demoRnd)).tilePool
          = wrongTileState.tilePool
       ∧ (stepV1 demoWordsCat 0 wrongTileState (GameEvent.tileClick 0 0 demoRnd)).tilePool.get? 0
          = some { id := "t1".toList, letter := some 'X', isUsed := false }) :=
  ⟨by decide,
   wrongTile_frame demoWordsCat 0 demoRnd 0 0 wrongTileState
     { id := "t1".toList, letter := some 'X', isUsed := false }
     (by decide) (by decide) (by decide) (by decide)⟩

theorem applyStageEnd_get_eq (prog : List StageProgress) (idx : Nat)
    (hist : List RoundStats) (st : StageProgress) (hget : prog[idx]? = some st) :
    (applyStageEnd prog idx hist)[idx]?
      = some { st with stars := max st.stars (stageStars hist)
                     , correctCount := max st.correctCount (correctCount hist) } := by
  have hlt : idx < prog.length := by
    by_contra h
    rw [List.getElem?_eq_none (by omega)] at hget
    cases hget
  have hmax : ∀ a b : Nat, (if a < b then b else a) = max a b := by
    intro a b; split <;> omega
  simp only [applyStageEnd, hget, hmax]
  have hidx : (prog.set idx
      { st with stars := max st.stars (stageStars hist)
              , correctCount := max st.correctCount (correctCount hist) })[idx]?
      = some { st with stars := max st.stars (stageStars hist)
                     , correctCount := max st.correctCount (correctCount hist) } :=
    List.getElem?_set_self (by simpa using hlt)
  split
  · cases hg : (prog.set idx
        { st with stars := max st.stars (stageStars hist)
                , correctCount := max st.correctCount (correctCount hist) })[idx + 1]? with
    | none => simpa [hg] using hidx
    | some st' =>
      simp only [hg]
      rw [List.getElem?_set_ne (by omega)]
      exact hidx
  · exact hidx

theorem initRoundV1_progress (WORDS : List WordData) (extraCount : Nat) (rnd : Rnd)
    (now stageIdx wordIdx : Nat) (s : AppState) :
    (initRoundV1 WORDS extraCount rnd now stageIdx wordIdx s).stagesProgress
      = s.stagesProgress := by
  rcases h : WORDS[stageIdx * WORDS_PER_STAGE + wordIdx]? with _ | w <;>
    simp [initRoundV1, h]

theorem finishWordV1_progress (WORDS : List WordData) (extraCount : Nat) (rnd : Rnd)
    (now : Nat) (isSkip : Bool) (s : AppState) :
    (finishWordV1 WORDS extraCount rnd now isSkip s).stagesProgress = s.stagesProgress
    ∨ ∃ idx hist, (finishWordV1 WORDS extraCount rnd now isSkip s).stagesProgress
        = applyStageEnd s.stagesProgress idx hist := by
  simp only [finishWordV1]
  split
  · split
    · left; rw [initRoundV1_progress]
    · left; rfl
  · right; exact ⟨_, _, rfl⟩

theorem handleTileClickV1_progress (WORDS : List WordData) (extraCount : Nat) (rnd : Rnd)
    (now i : Nat) (s : AppState) :
    (handleTileClickV1 WORDS extraCount rnd now i s).stagesProgress = s.stagesProgress
    ∨ ∃ idx hist, (handleTileClickV1 WORDS extraCount rnd now i s).stagesProgress
        = applyStageEnd s.stagesProgress idx hist := by
  rcases h : s.tilePool[i]? with _ | tile
  · left; simp [handleTileClickV1, h]
  · simp only [handleTileClickV1, h]
    split
    · left; rfl
    · split
      · split
        · exact finishWordV1_progress WORDS extraCount rnd now false _
        · left; rfl
      · left; rfl

theorem selectStageV1_progress (WORDS : List WordData) (extraCount : Nat) (rnd : Rnd)
    (now idx : Nat) (s : AppState) :
    (selectStageV1 WORDS extraCount rnd now idx s).stagesProgress = s.stagesProgress := by
  rcases h : s.stagesProgress[idx]? with _ | p
  · simp [selectStageV1, h]
  · simp only [selectStageV1, h]
    split
    · rw [initRoundV1_progress]
    · rfl

theorem stepV1_progress (WORDS : List WordData) (extraCount : Nat)
    (s : AppState) (e : GameEvent) :
    (stepV1 WORDS extraCount s e).stagesProgress = s.stagesProgress
    ∨ ∃ idx hist, (stepV1 WORDS extraCount s e).stagesProgress
        = applyStageEnd s.stagesProgress idx hist := by
  cases e with
  | startClick => left; simp only [stepV1]; split <;> rfl
  | homeClick => left; simp only [stepV1]; split <;> rfl
  | selectStage idx now rnd =>
      left; simp only [stepV1]
      split
      · exact selectStageV1_progress WORDS extraCount rnd now idx s
      · rfl
  | tileClick i now rnd =>
      simpa only [stepV1] using handleTileClickV1_progress WORDS extraCount rnd now i s
  | skipClick now rnd =>
      simp only [stepV1]
      split
      · exact finishWordV1_progress WORDS extraCount rnd now true s
      · left; rfl
  | nextWordClick now rnd =>
      left; simp only [stepV1]
      split
      · exact initRoundV1_progress WORDS extraCount rnd now _ _ _
      · rfl
  | quitClick => left; simp only [stepV1]; split <;> rfl
  | backToStages => left; simp only [stepV1]; split <;> rfl
  | replayClick now rnd =>
      left; simp only [stepV1]
      split
      · exact selectStageV1_progress WORDS extraCount rnd now _ s
      · rfl

theorem initRoundV2_progress (WORDS : List WordData) (extraCount : Nat) (rnd : Rnd)
    (now : Nat) (h0 : List RoundStats) (stageIdx wordIdx : Nat) (s : AppState) :
    (initRoundV2 WORDS extraCount rnd now h0 stageIdx wordIdx s).stagesProgress
        = s.stagesProgress
    ∨ ∃ idx hist, (initRoundV2 WORDS extraCount rnd now h0 stageIdx wordIdx s).stagesProgress
        = applyStageEnd s.stagesProgress idx hist := by
  simp only [initRoundV2]
  split
  · right; exact ⟨_, _, rfl⟩
  · left; rfl

theorem skipWordV2_progress (WORDS : List WordData) (extraCount : Nat) (rnd : Rnd)
    (now : Nat) (s : AppState) :
    (skipWordV2 WORDS extraCount rnd now s).stagesProgress = s.stagesProgress
    ∨ ∃ idx hist, (skipWordV2 WORDS extraCount rnd now s).stagesProgress
        = applyStageEnd s.stagesProgress idx hist := by
  simp only [skipWordV2]
  split
  · exact initRoundV2_progress WORDS extraCount rnd now _ _ _ _
  · right; exact ⟨_, _, rfl⟩

theorem nextWordV2_progress (WORDS : List WordData) (extraCount : Nat) (rnd : Rnd)
    (now : Nat) (s : AppState) :
    (nextWordV2 WORDS extraCount rnd now s).stagesProgress = s.stagesProgress
    ∨ ∃ idx hist, (nextWordV2 WORDS extraCount rnd now s).stagesProgress
        = applyStageEnd s.stagesProgress idx hist := by
  simp only [nextWordV2]
  split
  · exact initRoundV2_progress WORDS extraCount rnd now _ _ _ _
  · right; exact ⟨_, _, rfl⟩

theorem selectStageV2_progress (WORDS : List WordData) (extraCount : Nat) (rnd : Rnd)
    (now idx : Nat) (s : AppState) :
    (selectStageV2 WORDS extraCount rnd now idx s).stagesProgress = s.stagesProgress
    ∨ ∃ j hist, (selectStageV2 WORDS extraCount rnd now idx s).stagesProgress
        = applyStageEnd s.stagesProgress j hist := by
  rcases h : s.stagesProgress[idx]? with _ | p
  · left; simp [selectStageV2, h]
  · simp only [selectStageV2, h]
    split
    · exact initRoundV2_progress WORDS extraCount rnd now _ _ _ _
    · left; rfl

theorem handleTileClickV2_progress (WORDS : List WordData) (now i : Nat) (s : AppState) :
    (handleTileClickV2 WORDS now i s).stagesProgress = s.stagesProgress := by
  rcases h : s.tilePool[i]? with _ | tile
  · simp [handleTileClickV2, h]
  · simp only [handleTileClickV2, h]
    split
    · rfl
    · split
      · split
        · rfl
        · rfl
      · rfl

theorem stepV2_progress (WORDS : List WordData) (extraCount : Nat)
    (s : AppState) (e : GameEvent) :
    (stepV2 WORDS extraCount s e).stagesProgress = s.stagesProgress
    ∨ ∃ idx hist, (stepV2 WORDS extraCount s e).stagesProgress
        = applyStageEnd s.stagesProgress idx hist := by
  cases e with
  | startClick => left; simp only [stepV2]; split <;> rfl
  | homeClick => left; simp only [stepV2]; split <;> rfl
  | selectStage idx now rnd =>
      simp only [stepV2]
      split
      · exact selectStageV2_progress WORDS extraCount rnd now idx s
      · left; rfl
  | tileClick i now rnd =>
      left; simpa only [stepV2] using handleTileClickV2_progress WORDS now i s
  | skipClick now rnd =>
      simp only [stepV2]
      split
      · exact skipWordV2_progress WORDS extraCount rnd now s
      · left; rfl
  | nextWordClick now rnd =>
      simp only [stepV2]
      split
      · exact nextWordV2_progress WORDS extraCount rnd now s
      · left; rfl
  | quitClick => left; simp only [stepV2]; split <;> rfl
  | backToStages => left; simp only [stepV2]; split <;> rfl
  | replayClick now rnd =>
      simp only [stepV2]
      split
      · exact selectStageV2_progress WORDS extraCount rnd now _ s
      · left; rfl

theorem stepV1_progress_monotone (WORDS : List WordData) (extraCount : Nat)
    (s : AppState) (e : GameEvent) :
    List.Forall₂ ProgressLE s.stagesProgress
      ((stepV1 WORDS extraCount s e).stagesProgress) := by
  rcases stepV1_progress WORDS extraCount s e with h | ⟨idx, hist, h⟩ <;> rw [h]
  · exact forall₂_progressLE_refl _
  · exact applyStageEnd_monotone _ _ _

theorem stepV2_progress_monotone (WORDS : List WordData) (extraCount : Nat)
    (s : AppState) (e : GameEvent) :
    List.Forall₂ ProgressLE s.stagesProgress
      ((stepV2 WORDS extraCount s e).stagesProgress) := by
  rcases stepV2_progress WORDS extraCount s e with h | ⟨idx, hist, h⟩ <;> rw [h]
  · exact forall₂_progressLE_refl _
  · exact applyStageEnd_monotone _ _ _

/-- C2: across every sequence of game operations, in both variants, each
stored StageProgress record evolves monotonically (`ProgressLE`: a true
`unlocked` flag never reverts, `stars` and the best correct count never
decrease), and the stage-end merge writes exactly the maximum of the
existing and newly computed `stars` and correct-count values. -/
theorem progress_monotone (WORDS : List WordData) (extraCount : Nat) :
    (∀ (es : List GameEvent) (s : AppState),
        List.Forall₂ ProgressLE s.stagesProgress
          ((es.foldl (stepV1 WORDS extraCount) s).stagesProgress))
    ∧ (∀ (es : List GameEvent) (s : AppState),
        List.Forall₂ ProgressLE s.stagesProgress
          ((es.foldl (stepV2 WORDS extraCount) s).stagesProgress))
    ∧ (∀ (prog : List StageProgress) (idx : Nat) (hist : List RoundStats)
          (st : StageProgress), prog[idx]? = some st →
        (applyStageEnd prog idx hist)[idx]?
          = some { st with stars := max st.stars (stageStars hist)
                         , correctCount := max st.correctCount (correctCount hist) }) := by
  refine ⟨?_, ?_, fun prog idx hist st h => applyStageEnd_get_eq prog idx hist st h⟩
  · intro es
    induction es with
    | nil => exact fun s => forall₂_progressLE_refl _
    | cons e es ih =>
        intro s
        exact forall₂_progressLE_trans
          (stepV1_progress_monotone WORDS extraCount s e) (ih _)
  · intro es
    induction es with
    | nil => exact fun s => forall₂_progressLE_refl _
    | cons e es ih =>
        intro s
        exact forall₂_progressLE_trans
          (stepV2_progress_monotone WORDS extraCount s e) (ih _)

/-- Modelled from the spec: the catalog in the missing `constants.ts` has 100
words (10 stages of 10), each a nonempty word. -/
def GoodCatalog (WORDS : List WordData) : Prop :=
  100 ≤ WORDS.length ∧ ∀ w ∈ WORDS, w.word ≠ []

theorem currentWordOf_get (WORDS : List WordData) (s : AppState)
    (hcat : GoodCatalog WORDS)
    (hst : s.currentStageIdx < 10) (hw : s.currentWordInStageIdx < 10) :
    ∃ w : WordData, WORDS[s.currentStageIdx * WORDS_PER_STAGE + s.currentWordInStageIdx]?
        = some w
      ∧ currentWordOf WORDS s = w.word.map Char.toUpper := by
  have hg : s.currentStageIdx * WORDS_PER_STAGE + s.currentWordInStageIdx
      < WORDS.length := by
    have := hcat.1
    simp only [WORDS_PER_STAGE]
    omega
  refine ⟨_, List.getElem?_eq_getElem hg, ?_⟩
  simp [currentWordOf, List.getElem?_eq_getElem hg]

theorem currentWordOf_ne_nil (WORDS : List WordData) (s : AppState)
    (hcat : GoodCatalog WORDS)
    (hst : s.currentStageIdx < 10) (hw : s.currentWordInStageIdx < 10) :
    currentWordOf WORDS s ≠ [] := by
  obtain ⟨w, hwg, hcw⟩ := currentWordOf_get WORDS s hcat hst hw
  have hmem : w ∈ WORDS := by
    rw [← List.get?_eq_getElem?] at hwg
    exact List.get?_mem hwg
  rw [hcw]
  simp [hcat.2 w hmem]

/-- The inductive invariant of the part_000 machine carrying the typed-prefix
property. -/
def InvV1 (WORDS : List WordData) (s : AppState) : Prop :=
  s.userTyped <+: currentWordOf WORDS s
  ∧ s.currentStageIdx < 10
  ∧ s.currentWordInStageIdx < 10
  ∧ s.stagesProgress.length = 10
  ∧ (s.gameState = GameState.PLAYING → s.userTyped ≠ currentWordOf WORDS s)
  ∧ (s.gameState = GameState.CELEBRATING → s.currentWordInStageIdx + 1 < 10)

/-- The inductive invariant of the App.tsx machine (its `nextWord` is
range-checked, so no bound is needed in the Celebrating mode). -/
def InvV2 (WORDS : List WordData) (s : AppState) : Prop :=
  s.userTyped <+: currentWordOf WORDS s
  ∧ s.currentStageIdx < 10
  ∧ s.currentWordInStageIdx < 10
  ∧ s.stagesProgress.length = 10
  ∧ (s.gameState = GameState.PLAYING → s.userTyped ≠ currentWordOf WORDS s)

theorem initRoundV1_inv (WORDS : List WordData) (extraCount : Nat) (rnd : Rnd)
    (now : Nat) (stageIdx wordIdx : Nat) (s : AppState)
    (hcat : GoodCatalog WORDS)
    (hst : stageIdx < 10) (hw : wordIdx < 10)
    (hsp : s.stagesProgress.length = 10)
    (h1 : s.currentStageIdx = stageIdx) (h2 : s.currentWordInStageIdx = wordIdx) :
    InvV1 WORDS (initRoundV1 WORDS extraCount rnd now stageIdx wordIdx s) := by
  have hg : stageIdx * WORDS_PER_STAGE + wordIdx < WORDS.length := by
    have := hcat.1; simp only [WORDS_PER_STAGE]; omega
  have hwg := List.getElem?_eq_getElem hg
  have hne : (WORDS[stageIdx * WORDS_PER_STAGE + wordIdx]).word ≠ [] :=
    hcat.2 _ (List.getElem_mem hg)
  simp only [InvV1, initRoundV1, hwg, currentWordOf, h1, h2]
  refine ⟨List.nil_prefix, hst, hw, hsp, fun _ => ?_, fun h => absurd h (by decide)⟩
  intro hcweq
  exact hne (List.map_eq_nil_iff.mp hcweq.symm)

theorem applyStageEnd_length (prog : List StageProgress) (idx : Nat)
    (hist : List RoundStats) :
    (applyStageEnd prog idx hist).length = prog.length := by
  rcases h : prog[idx]? with _ | st <;>
    simp only [applyStageEnd, h] <;>
    split <;>
    first
      | rfl
      | · split <;> simp [List.length_set]

/-- A strict prefix extended by the next character of the word is still a
prefix. -/
theorem prefix_snoc_of_strict {typed cw : List Char}
    (hpre : typed <+: cw) (hlt : typed.length < cw.length) :
    typed ++ [cw.get ⟨typed.length, hlt⟩] <+: cw := by
  have htake := List.prefix_iff_eq_take.mp hpre
  have : typed ++ [cw.get ⟨typed.length, hlt⟩] = List.take (typed.length + 1) cw := by
    rw [List.take_succ, ← htake]
    simp [List.getElem?_eq_getElem hlt]
  rw [this]
  exact List.take_prefix _ _

theorem initRoundV2_inv (WORDS : List WordData) (extraCount : Nat) (rnd : Rnd)
    (now : Nat) (h0 : List RoundStats) (stageIdx wordIdx : Nat) (s : AppState)
    (hcat : GoodCatalog WORDS)
    (hst : stageIdx < 10) (hw : wordIdx < 10)
    (hsp : s.stagesProgress.length = 10)
    (h1 : s.currentStageIdx = stageIdx) (h2 : s.currentWordInStageIdx = wordIdx) :
    InvV2 WORDS (initRoundV2 WORDS extraCount rnd now h0 stageIdx wordIdx s) := by
  have hg : stageIdx * WORDS_PER_STAGE + wordIdx < WORDS.length := by
    have := hcat.1; simp only [WORDS_PER_STAGE]; omega
  have hguard : ¬(WORDS.length ≤ stageIdx * WORDS_PER_STAGE + wordIdx
      ∨ WORDS_PER_STAGE ≤ wordIdx) := by
    have hg' := hg
    simp only [WORDS_PER_STAGE] at hg' ⊢
    omega
  have hwg := List.getElem?_eq_getElem hg
  have hne : (WORDS[stageIdx * WORDS_PER_STAGE + wordIdx]).word ≠ [] :=
    hcat.2 _ (List.getElem_mem hg)
  simp only [InvV2, initRoundV2, dif_neg hguard, currentWordOf, h1, h2, hwg,
    List.get_eq_getElem]
  refine ⟨List.nil_prefix, hst, hw, hsp, fun _ => ?_⟩
  intro hcweq
  exact hne (List.map_eq_nil_iff.mp hcweq.symm)

theorem finishWordV1_win_inv (WORDS : List WordData) (extraCount : Nat) (rnd : Rnd)
    (now : Nat) (s1 : AppState)
    (hst : s1.currentStageIdx < 10) (hw : s1.currentWordInStageIdx < 10)
    (hsp : s1.stagesProgress.length = 10)
    (heq : s1.userTyped = currentWordOf WORDS s1) :
    InvV1 WORDS (finishWordV1 WORDS extraCount rnd now false s1) := by
  simp only [finishWordV1, Bool.false_eq_true, if_false]
  split
  · rename_i hless
    refine ⟨?_, hst, hw, hsp, fun hpl => absurd hpl (by simp), fun _ => ?_⟩
    · show s1.userTyped <+: currentWordOf WORDS s1
      rw [heq]
    · simpa [WORDS_PER_STAGE] using hless
  · refine ⟨?_, hst, hw, ?_, fun hpl => absurd hpl (by simp [calculateStageResultsV1]),
      fun hcel => absurd hcel (by simp [calculateStageResultsV1])⟩
    · show s1.userTyped <+: currentWordOf WORDS s1
      rw [heq]
    · show (applyStageEnd s1.stagesProgress s1.currentStageIdx _).length = 10
      rw [applyStageEnd_length]
      exact hsp

theorem handleTileClickV1_inv (WORDS : List WordData) (extraCount : Nat) (rnd : Rnd)
    (now i : Nat) (s : AppState) (hinv : InvV1 WORDS s) :
    InvV1 WORDS (handleTileClickV1 WORDS extraCount rnd now i s) := by
  obtain ⟨hpre, hst, hw, hsp, hplayimp, hcelimp⟩ := hinv
  rcases h : s.tilePool[i]? with _ | tile
  · simpa only [handleTileClickV1, h] using
      (⟨hpre, hst, hw, hsp, hplayimp, hcelimp⟩ : InvV1 WORDS s)
  · simp only [handleTileClickV1, h]
    split
    · exact ⟨hpre, hst, hw, hsp, hplayimp, hcelimp⟩
    · rename_i hguard
      push_neg at hguard
      have hplay : s.gameState = GameState.PLAYING := hguard.1
      have hstrict : s.userTyped ≠ currentWordOf WORDS s := hplayimp hplay
      have hlen : s.userTyped.length < (currentWordOf WORDS s).length :=
        lt_of_le_of_ne hpre.length_le
          (fun hl => hstrict (hpre.eq_of_length hl))
      split
      · rename_i hmatch
        have hcwq : (currentWordOf WORDS s)[s.userTyped.length]?
            = some ((currentWordOf WORDS s).get ⟨s.userTyped.length, hlen⟩) :=
          List.getElem?_eq_getElem hlen
        have hletter : tile.letter
            = some ((currentWordOf WORDS s).get ⟨s.userTyped.length, hlen⟩) :=
          hmatch.trans hcwq
        have hopt : optLetterStr tile.letter
            = [(currentWordOf WORDS s).get ⟨s.userTyped.length, hlen⟩] := by
          rw [hletter]; rfl
        have hnpre : s.userTyped ++ optLetterStr tile.letter <+: currentWordOf WORDS s := by
          rw [hopt]
          exact prefix_snoc_of_strict hpre hlen
        split
        · rename_i hwineq
          exact finishWordV1_win_inv WORDS extraCount rnd now _ hst hw hsp hwineq
        · rename_i hne
          exact ⟨hnpre, hst, hw, hsp, fun _ => hne, fun hcel => hcelimp (hplay ▸ hcel)⟩
      · exact ⟨hpre, hst, hw, hsp, fun _ => hstrict, fun hcel => hcelimp (hplay ▸ hcel)⟩

theorem handleTileClickV2_inv (WORDS : List WordData) (now i : Nat)
    (s : AppState) (hinv : InvV2 WORDS s) :
    InvV2 WORDS (handleTileClickV2 WORDS now i s) := by
  obtain ⟨hpre, hst, hw, hsp, hplayimp⟩ := hinv
  rcases h : s.tilePool[i]? with _ | tile
  · simpa only [handleTileClickV2, h] using
      (⟨hpre, hst, hw, hsp, hplayimp⟩ : InvV2 WORDS s)
  · simp only [handleTileClickV2, h]
    split
    · exact ⟨hpre, hst, hw, hsp, hplayimp⟩
    · rename_i hguard
      push_neg at hguard
      have hplay : s.gameState = GameState.PLAYING := hguard.1
      have hstrict : s.userTyped ≠ currentWordOf WORDS s := hplayimp hplay
      have hlen : s.userTyped.length < (currentWordOf WORDS s).length :=
        lt_of_le_of_ne hpre.length_le
          (fun hl => hstrict (hpre.eq_of_length hl))
      split
      · rename_i hmatch
        have hcwq : (currentWordOf WORDS s)[s.userTyped.length]?
            = some ((currentWordOf WORDS s).get ⟨s.userTyped.length, hlen⟩) :=
          List.getElem?_eq_getElem hlen
        have hletter : tile.letter
            = some ((currentWordOf WORDS s).get ⟨s.userTyped.length, hlen⟩) :=
          hmatch.trans hcwq
        have hopt : optLetterStr tile.letter
            = [(currentWordOf WORDS s).get ⟨s.userTyped.length, hlen⟩] := by
          rw [hletter]; rfl
        have hnpre : s.userTyped ++ optLetterStr tile.letter <+: currentWordOf WORDS s := by
          rw [hopt]
          exact prefix_snoc_of_strict hpre hlen
        split
        · rename_i hwineq
          refine ⟨?_, hst, hw, hsp, fun hpl => absurd hpl (by simp [handleWinV2])⟩
          show _ ++ _ <+: currentWordOf WORDS _
          rw [hwineq]
          exact List.prefix_rfl
        · rename_i hne
          exact ⟨hnpre, hst, hw, hsp, fun _ => hne⟩
      · exact ⟨hpre, hst, hw, hsp, fun _ => hstrict⟩

theorem selectStageV1_inv (WORDS : List WordData) (extraCount : Nat) (rnd : Rnd)
    (now idx : Nat) (s : AppState) (hcat : GoodCatalog WORDS)
    (hinv : InvV1 WORDS s) :
    InvV1 WORDS (selectStageV1 WORDS extraCount rnd now idx s) := by
  obtain ⟨hpre, hst, hw, hsp, hpl, hcel⟩ := hinv
  rcases h : s.stagesProgress[idx]? with _ | p
  · simpa only [selectStageV1, h] using
      (⟨hpre, hst, hw, hsp, hpl, hcel⟩ : InvV1 WORDS s)
  · simp only [selectStageV1, h]
    split
    · have hidx : idx < 10 := by
        have hlt : idx < s.stagesProgress.length := by
          by_contra hc
          rw [List.getElem?_eq_none (by omega)] at h
          cases h
        omega
      exact initRoundV1_inv WORDS extraCount rnd now idx 0 _ hcat hidx (by omega) hsp rfl rfl
    · exact ⟨hpre, hst, hw, hsp, hpl, hcel⟩

theorem finishWordV1_skip_inv (WORDS : List WordData) (extraCount : Nat) (rnd : Rnd)
    (now : Nat) (s : AppState) (hcat : GoodCatalog WORDS)
    (hinv : InvV1 WORDS s) :
    InvV1 WORDS (finishWordV1 WORDS extraCount rnd now true s) := by
  obtain ⟨hpre, hst, hw, hsp, hpl, hcel⟩ := hinv
  simp only [finishWordV1, if_true]
  split
  · rename_i hless
    exact initRoundV1_inv WORDS extraCount rnd now s.currentStageIdx
      (s.currentWordInStageIdx + 1) _ hcat hst
      (by simpa [WORDS_PER_STAGE] using hless) hsp rfl rfl
  · refine ⟨hpre, hst, hw, ?_,
      fun hpl' => absurd hpl' (by simp [calculateStageResultsV1]),
      fun hcel' => absurd hcel' (by simp [calculateStageResultsV1])⟩
    show (applyStageEnd s.stagesProgress s.currentStageIdx _).length = 10
    rw [applyStageEnd_length]
    exact hsp

theorem nextWordV1_inv (WORDS : List WordData) (extraCount : Nat) (rnd : Rnd)
    (now : Nat) (s : AppState) (hcat : GoodCatalog WORDS)
    (hinv : InvV1 WORDS s) (hcelst : s.gameState = GameState.CELEBRATING) :
    InvV1 WORDS (nextWordV1 WORDS extraCount rnd now s) := by
  have hb : s.currentWordInStageIdx + 1 < 10 := hinv.2.2.2.2.2 hcelst
  exact initRoundV1_inv WORDS extraCount rnd now s.currentStageIdx
    (s.currentWordInStageIdx + 1) _ hcat hinv.2.1 hb hinv.2.2.2.1 rfl rfl

theorem stepV1_inv (WORDS : List WordData) (extraCount : Nat)
    (hcat : GoodCatalog WORDS) (s : AppState) (e : GameEvent)
    (hinv : InvV1 WORDS s) :
    InvV1 WORDS (stepV1 WORDS extraCount s e) := by
  obtain ⟨hpre, hst, hw, hsp, hpl, hcel⟩ := hinv
  have hinv' : InvV1 WORDS s := ⟨hpre, hst, hw, hsp, hpl, hcel⟩
  cases e with
  | startClick =>
      simp only [stepV1]; split
      · exact ⟨hpre, hst, hw, hsp, fun h => absurd h (by simp),
          fun h => absurd h (by simp)⟩
      · exact hinv'
  | homeClick =>
      simp only [stepV1]; split
      · exact ⟨hpre, hst, hw, hsp, fun h => absurd h (by simp),
          fun h => absurd h (by simp)⟩
      · exact hinv'
  | selectStage idx now rnd =>
      simp only [stepV1]; split
      · exact selectStageV1_inv WORDS extraCount rnd now idx s hcat hinv'
      · exact hinv'
  | tileClick i now rnd =>
      simpa only [stepV1] using
        handleTileClickV1_inv WORDS extraCount rnd now i s hinv'
  | skipClick now rnd =>
      simp only [stepV1]; split
      · exact finishWordV1_skip_inv WORDS extraCount rnd now s hcat hinv'
      · exact hinv'
  | nextWordClick now rnd =>
      simp only [stepV1]; split
      · rename_i hcelst
        exact nextWordV1_inv WORDS extraCount rnd now s hcat hinv' hcelst
      · exact hinv'
  | quitClick =>
      simp only [stepV1]; split
      · exact ⟨hpre, hst, hw, hsp, fun h => absurd h (by simp),
          fun h => absurd h (by simp)⟩
      · exact hinv'
  | backToStages =>
      simp only [stepV1]; split
      · exact ⟨hpre, hst, hw, hsp, fun h => absurd h (by simp),
          fun h => absurd h (by simp)⟩
      · exact hinv'
  | replayClick now rnd =>
      simp only [stepV1]; split
      · exact selectStageV1_inv WORDS extraCount rnd now _ s hcat hinv'
      · exact hinv'

theorem selectStageV2_inv (WORDS : List WordData) (extraCount : Nat) (rnd : Rnd)
    (now idx : Nat) (s : AppState) (hcat : GoodCatalog WORDS)
    (hinv : InvV2 WORDS s) :
    InvV2 WORDS (selectStageV2 WORDS extraCount rnd now idx s) := by
  obtain ⟨hpre, hst, hw, hsp, hpl⟩ := hinv
  rcases h : s.stagesProgress[idx]? with _ | p
  · simpa only [selectStageV2, h] using
      (⟨hpre, hst, hw, hsp, hpl⟩ : InvV2 WORDS s)
  · simp only [selectStageV2, h]
    split
    · have hidx : idx < 10 := by
        have hlt : idx < s.stagesProgress.length := by
          by_contra hc
          rw [List.getElem?_eq_none (by omega)] at h
          cases h
        omega
      exact initRoundV2_inv WORDS extraCount rnd now _ idx 0 _ hcat hidx (by omega) hsp rfl rfl
    · exact ⟨hpre, hst, hw, hsp, hpl⟩

theorem skipWordV2_inv (WORDS : List WordData) (extraCount : Nat) (rnd : Rnd)
    (now : Nat) (s : AppState) (hcat : GoodCatalog WORDS)
    (hinv : InvV2 WORDS s) :
    InvV2 WORDS (skipWordV2 WORDS extraCount rnd now s) := by
  obtain ⟨hpre, hst, hw, hsp, hpl⟩ := hinv
  simp only [skipWordV2]
  split
  · rename_i hless
    exact initRoundV2_inv WORDS extraCount rnd now _ s.currentStageIdx
      (s.currentWordInStageIdx + 1) _ hcat hst
      (by simpa [WORDS_PER_STAGE] using hless) hsp rfl rfl
  · refine ⟨hpre, hst, hw, ?_, fun hpl' => absurd hpl' (by simp [handleStageEndV2])⟩
    show (applyStageEnd s.stagesProgress s.currentStageIdx _).length = 10
    rw [applyStageEnd_length]
    exact hsp

theorem nextWordV2_inv (WORDS : List WordData) (extraCount : Nat) (rnd : Rnd)
    (now : Nat) (s : AppState) (hcat : GoodCatalog WORDS)
    (hinv : InvV2 WORDS s) :
    InvV2 WORDS (nextWordV2 WORDS extraCount rnd now s) := by
  obtain ⟨hpre, hst, hw, hsp, hpl⟩ := hinv
  simp only [nextWordV2]
  split
  · rename_i hless
    exact initRoundV2_inv WORDS extraCount rnd now _ s.currentStageIdx
      (s.currentWordInStageIdx + 1) _ hcat hst
      (by simpa [WORDS_PER_STAGE] using hless) hsp rfl rfl
  · refine ⟨hpre, hst, hw, ?_, fun hpl' => absurd hpl' (by simp [handleStageEndV2])⟩
    show (applyStageEnd s.stagesProgress s.currentStageIdx _).length = 10
    rw [applyStageEnd_length]
    exact hsp

theorem stepV2_inv (WORDS : List WordData) (extraCount : Nat)
    (hcat : GoodCatalog WORDS) (s : AppState) (e : GameEvent)
    (hinv : InvV2 WORDS s) :
    InvV2 WORDS (stepV2 WORDS extraCount s e) := by
  obtain ⟨hpre, hst, hw, hsp, hpl⟩ := hinv
  have hinv' : InvV2 WORDS s := ⟨hpre, hst, hw, hsp, hpl⟩
  cases e with
  | startClick =>
      simp only [stepV2]; split
      · exact ⟨hpre, hst, hw, hsp, fun h => absurd h (by simp)⟩
      · exact hinv'
  | homeClick =>
      simp only [stepV2]; split
      · exact ⟨hpre, hst, hw, hsp, fun h => absurd h (by simp)⟩
      · exact hinv'
  | selectStage idx now rnd =>
      simp only [stepV2]; split
      · exact selectStageV2_inv WORDS extraCount rnd now idx s hcat hinv'
      · exact hinv'
  | tileClick i now rnd =>
      simpa only [stepV2] using handleTileClickV2_inv WORDS now i s hinv'
  | skipClick now rnd =>
      simp only [stepV2]; split
      · exact skipWordV2_inv WORDS extraCount rnd now s hcat hinv'
      · exact hinv'
  | nextWordClick now rnd =>
      simp only [stepV2]; split
      · exact nextWordV2_inv WORDS extraCount rnd now s hcat hinv'
      · exact hinv'
  | quitClick =>
      simp only [stepV2]; split
      · exact ⟨hpre, hst, hw, hsp, fun h => absurd h (by simp)⟩
      · exact hinv'
  | backToStages =>
      simp only [stepV2]; split
      · exact ⟨hpre, hst, hw, hsp, fun h => absurd h (by simp)⟩
      · exact hinv'
  | replayClick now rnd =>
      simp only [stepV2]; split
      · exact selectStageV2_inv WORDS extraCount rnd now _ s hcat hinv'
      · exact hinv'

/-- States reachable from the freshly-loaded state by user events in the
part_000 machine. -/
inductive ReachableV1 (WORDS : List WordData) (extraCount : Nat) : AppState → Prop where
  | init : ReachableV1 WORDS extraCount initialState
  | step : ∀ (s : AppState) (e : GameEvent), ReachableV1 WORDS extraCount s →
      ReachableV1 WORDS extraCount (stepV1 WORDS extraCount s e)

/-- States reachable from the freshly-loaded state by user events in the
App.tsx machine. -/
inductive ReachableV2 (WORDS : List WordData) (extraCount : Nat) : AppState → Prop where
  | init : ReachableV2 WORDS extraCount initialState
  | step : ∀ (s : AppState) (e : GameEvent), ReachableV2 WORDS extraCount s →
      ReachableV2 WORDS extraCount (stepV2 WORDS extraCount s e)

theorem initialState_invV1 (WORDS : List WordData) : InvV1 WORDS initialState := by
  refine ⟨List.nil_prefix, by simp [initialState], by simp [initialState], ?_,
    fun h => absurd h (by simp [initialState]),
    fun h => absurd h (by simp [initialState])⟩
  simp [initialState, defaultStagesProgress]

theorem initialState_invV2 (WORDS : List WordData) : InvV2 WORDS initialState := by
  refine ⟨List.nil_prefix, by simp [initialState], by simp [initialState], ?_,
    fun h => absurd h (by simp [initialState])⟩
  simp [initialState, defaultStagesProgress]

/-- C10: in every reachable state of either variant, the typed string is a
prefix of the uppercased current target word — round initialization resets it
to empty and a tile click appends a letter only when it equals the target's
character at the current prefix length. The catalog hypothesis reflects the
100-word catalog of the missing `constants.ts` (ten stages of ten nonempty
words). -/
theorem userTyped_prefix_invariant (WORDS : List WordData) (extraCount : Nat)
    (hcat : GoodCatalog WORDS) :
    (∀ s : AppState, ReachableV1 WORDS extraCount s →
        s.userTyped <+: currentWordOf WORDS s)
    ∧ (∀ s : AppState, ReachableV2 WORDS extraCount s →
        s.userTyped <+: currentWordOf WORDS s) := by
  constructor
  · intro s hr
    have hinv : InvV1 WORDS s := by
      induction hr with
      | init => exact initialState_invV1 WORDS
      | step s e _ ih => exact stepV1_inv WORDS extraCount hcat s e ih
    exact hinv.1
  · intro s hr
    have hinv : InvV2 WORDS s := by
      induction hr with
      | init => exact initialState_invV2 WORDS
      | step s e _ ih => exact stepV2_inv WORDS extraCount hcat s e ih
    exact hinv.1

theorem userTyped_prefix_invariant_witness :
    GoodCatalog demoWords
    ∧ initialState.userTyped <+: currentWordOf demoWords initialState
    ∧ (stepV1 demoWords 0 initialState GameEvent.startClick).userTyped
        <+: currentWordOf demoWords (stepV1 demoWords 0 initialState GameEvent.startClick) :=
  ⟨⟨by decide, by decide⟩,
   (userTyped_prefix_invariant demoWords 0 ⟨by decide, by decide⟩).1 initialState
     ReachableV1.init,
   (userTyped_prefix_invariant demoWords 0 ⟨by decide, by decide⟩).1 _
     (ReachableV1.step initialState GameEvent.startClick ReachableV1.init)⟩

theorem progress_monotone_witness :
    List.Forall₂ ProgressLE initialState.stagesProgress
      (([GameEvent.startClick].foldl (stepV1 demoWords 0) initialState).stagesProgress)
    ∧ (applyStageEnd defaultStagesProgress 0 demoHistory8)[0]?
        = some { stars := max 0 (stageStars demoHistory8)
               , isUnlocked := true
               , correctCount := max 0 (correctCount demoHistory8) } :=
  ⟨(progress_monotone demoWords 0).1 [GameEvent.startClick] initialState,
   (progress_monotone demoWords 0).2.2 defaultStagesProgress 0 demoHistory8
     { stars := 0, isUnlocked := true, correctCount := 0 } (by decide)⟩

/-- Parse a decimal natural number (at least one digit) from the front. -/
def parseNat (cs : List Char) : Option (Nat × List Char) :=
  let digits := cs.takeWhile fun c => '0' ≤ c && c ≤ '9'
  if digits = [] then none
  else some (digits.foldl (fun n c => n * 10 + (c.toNat - '0'.toNat)) 0,
             cs.drop digits.length)

/-- Consume an expected literal from the front. -/
def parseLit (lit cs : List Char) : Option (List Char) :=
  if lit.isPrefixOf cs then some (cs.drop lit.length) else none

/-- Parse `true` or `false`. -/
def parseBool (cs : List Char) : Option (Bool × List Char) :=
  match parseLit "true".toList cs with
  | some rest => some (true, rest)
  | none =>
    match parseLit "false".toList cs with
    | some rest => some (false, rest)
    | none => none

/-- Parse one serialized StageProgress record, i.e.
`\x7b"stars":N,"isUnlocked":B,"correctCount":N\x7d`. -/
def parseRecord (cs : List Char) : Option (StageProgress × List Char) := do
  let cs1 ← parseLit "\x7b\"stars\":".toList cs
  let (stars, cs2) ← parseNat cs1
  let cs3 ← parseLit ",\"isUnlocked\":".toList cs2
  let (unlocked, cs4) ← parseBool cs3
  let cs5 ← parseLit ",\"correctCount\":".toList cs4
  let (correct, cs6) ← parseNat cs5
  let cs7 ← parseLit "\x7d".toList cs6
  some ({ stars := stars, isUnlocked := unlocked, correctCount := correct }, cs7)

/-- Parse a comma-separated nonempty sequence of records (fueled). -/
def parseRecords : Nat → List Char → Option (List StageProgress × List Char)
  | 0, _ => none
  | fuel + 1, cs =>
    match parseRecord cs with
    | none => none
    | some (r, cs1) =>
      match parseLit ",".toList cs1 with
      | some cs2 =>
        match parseRecords fuel cs2 with
        | none => none
        | some (rs, cs3) => some (r :: rs, cs3)
      | none => some ([r], cs1)

/-- Modelled from the spec: the persisted blob is "a JSON-serializable array
of ten StageProgress records" and `JSON.parse` is a platform builtin (not
under src/). This parser accepts exactly the serialized progress arrays and
returns `none` on malformed input, modelling the exception `JSON.parse`
throws on invalid JSON. (`JSON.parse` also accepts other well-formed JSON,
which the code would pass through without any shape validation.) -/
def parseProgressBlob (s : List Char) : Option (List StageProgress) := do
  let cs ← parseLit "[".toList s
  match parseLit "]".toList cs with
  | some rest => if rest = [] then some [] else none
  | none =>
    match parseRecords (cs.length + 1) cs with
    | none => none
    | some (rs, cs1) =>
      match parseLit "]".toList cs1 with
      | some rest => if rest = [] then some rs else none
      | none => none

/-- `JSON.stringify` restricted to the progress array (the shape written by
the save effect after every mutation). -/
def serializeStageProgress (p : StageProgress) : List Char :=
  "\x7b\"stars\":".toList ++ (Nat.repr p.stars).toList
    ++ ",\"isUnlocked\":".toList
    ++ (if p.isUnlocked then "true".toList else "false".toList)
    ++ ",\"correctCount\":".toList ++ (Nat.repr p.correctCount).toList
    ++ "\x7d".toList

def serializeProgress (l : List StageProgress) : List Char :=
  "[".toList ++ List.intercalate ",".toList (l.map serializeStageProgress)
    ++ "]".toList

deriving instance DecidableEq for Except

/-- App.tsx lines 448-457 (identically part_000 lines 86-94): the startup
read. `if (saved)` treats both a missing key and the empty string as absent;
otherwise `JSON.parse(saved)` runs with no try/catch, so a parse failure is
an escaping exception (`.error`), and a parsed value is returned as the
progress list without validation. -/
def loadStagesProgress (saved : Option (List Char)) :
    Except (List Char) (List StageProgress) :=
  match saved with
  | none => .ok defaultStagesProgress
  | some s =>
    if s = [] then .ok defaultStagesProgress
    else
      match parseProgressBlob s with
      | some prog => .ok prog
      | none => .error ("SyntaxError: JSON.parse".toList)

/-- C6 counterexample: loading the malformed blob "oops" does not fall back
to the default state — `JSON.parse` throws and nothing catches it; and a
well-formed but wrong-shape blob `[]` is accepted as an empty progress list,
not replaced by the ten default records. (An absent key does give the
default ten-record state.) -/
theorem load_malformed_counterexample :
    loadStagesProgress none = .ok defaultStagesProgress
    ∧ loadStagesProgress (some "oops".toList)
        = .error ("SyntaxError: JSON.parse".toList)
    ∧ loadStagesProgress (some "oops".toList) ≠ .ok defaultStagesProgress
    ∧ loadStagesProgress (some "[]".toList) = .ok []
    ∧ defaultStagesProgress.length = 10 := by
  decide

/-- C6 (amended): an absent key — or an empty string, which `if (saved)`
treats as absent — yields the default ten records with only stage 0
unlocked; a nonempty blob is parsed by `JSON.parse` with no error handling,
so a malformed blob makes the load throw instead of falling back, and a
parseable blob is returned as-is without shape validation. The default state
round-trips through save and load. -/
theorem load_progress_amended :
    loadStagesProgress none = .ok defaultStagesProgress
    ∧ loadStagesProgress (some []) = .ok defaultStagesProgress
    ∧ (defaultStagesProgress.length = 10
       ∧ defaultStagesProgress[0]? = some { stars := 0, isUnlocked := true, correctCount := 0 }
       ∧ ∀ i, 1 ≤ i → i ≤ 9 →
          defaultStagesProgress[i]? = some { stars := 0, isUnlocked := false, correctCount := 0 })
    ∧ (∀ s prog, parseProgressBlob s = some prog →
        loadStagesProgress (some s) = .ok prog)
    ∧ (∀ s, s ≠ [] → parseProgressBlob s = none →
        loadStagesProgress (some s) = .error ("SyntaxError: JSON.parse".toList))
    ∧ parseProgressBlob (serializeProgress defaultStagesProgress)
        = some defaultStagesProgress := by
  refine ⟨by decide, by decide, ⟨by decide, by decide, by decide⟩, ?_, ?_, by decide⟩
  · intro s prog hp
    have hs : s ≠ [] := by
      intro h
      rw [h] at hp
      simp [parseProgressBlob, parseLit, List.isPrefixOf] at hp
    simp [loadStagesProgress, hs, hp]
  · intro s hs hp
    simp [loadStagesProgress, hs, hp]

theorem load_progress_amended_witness :
    parseProgressBlob "oops".toList = none
    ∧ loadStagesProgress (some "oops".toList)
        = .error ("SyntaxError: JSON.parse".toList)
    ∧ parseProgressBlob (serializeProgress defaultStagesProgress)
        = some defaultStagesProgress
    ∧ loadStagesProgress (some (serializeProgress defaultStagesProgress))
        = .ok defaultStagesProgress :=
  ⟨by decide,
   (load_progress_amended.2.2.2.2.1) "oops".toList (by decide) (by decide),
   load_progress_amended.2.2.2.2.2,
   (load_progress_amended.2.2.2.1) (serializeProgress defaultStagesProgress)
     defaultStagesProgress (by decide)⟩

/-- C9 (amended, positive part): whatever the random comparator does, the
returned pool is some rearrangement of the mandatory-then-decoy
concatenation. -/
theorem generateTilePool_shuffle_perm (extraCount : Nat) (rnd : Rnd)
    (word : List Char) (hsh : PermShuffle rnd) :
    (generateTilePool extraCount rnd word).Perm (baseTilePool extraCount rnd word) :=
  hsh _

theorem generateTilePool_shuffle_perm_witness :
    PermShuffle demoRnd
    ∧ (generateTilePool 1 demoRnd "AB".toList).Perm (baseTilePool 1 demoRnd "AB".toList) :=
  ⟨demoRnd_perm, generateTilePool_shuffle_perm 1 demoRnd "AB".toList demoRnd_perm⟩

/-- C9 counterexample: the shuffle cannot be a uniformly random permutation.
The sort comparator `() => Math.random() - 0.5` makes the sort a
deterministic procedure driven by finitely many independent fair coin
outcomes; for the 3-tile pool of the word "AB" with one decoy, every such
procedure gives each output permutation a probability with a power-of-two
denominator, so the six permutations cannot all have probability 1/6
(3 never divides 2^k) — no coin count `k` and procedure `f` that always
permutes the pool puts the same number of coin outcomes on every
permutation. -/
theorem shuffle_not_uniform_counterexample :
    ¬ ∃ (k : Nat) (f : (Fin k → Bool) → List TileItem),
        (∀ coins, (f coins).Perm (baseTilePool 1 demoRnd "AB".toList))
        ∧ ∃ c : Nat, ∀ l : List TileItem,
            l.Perm (baseTilePool 1 demoRnd "AB".toList) →
            (Finset.univ.filter fun coins => f coins = l).card = c := by
  rintro ⟨k, f, hperm, c, hunif⟩
  set base := baseTilePool 1 demoRnd "AB".toList with hbase
  set t : Finset (List TileItem) := base.permutations.toFinset with ht
  have hnodup : base.Nodup := by
    rw [hbase]
    decide
  have ht6 : t.card = 6 := by
    rw [ht, List.toFinset_card_of_nodup (List.nodup_permutations _ hnodup),
      List.length_permutations, hbase]
    decide
  have hmem : ∀ coins : Fin k → Bool, f coins ∈ t := by
    intro coins
    rw [ht, List.mem_toFinset, List.mem_permutations]
    exact hperm coins
  have hsum : (Finset.univ : Finset (Fin k → Bool)).card
      = ∑ b ∈ t, ((Finset.univ : Finset (Fin k → Bool)).filter fun a => f a = b).card :=
    Finset.card_eq_sum_card_fiberwise fun a _ => hmem a
  have hconst : ∀ b ∈ t, ((Finset.univ : Finset (Fin k → Bool)).filter fun a => f a = b).card = c := by
    intro b hb
    apply hunif
    rw [ht, List.mem_toFinset, List.mem_permutations] at hb
    exact hb
  have h2k : (2 : Nat) ^ k = 6 * c := by
    have hcardu : (Finset.univ : Finset (Fin k → Bool)).card = 2 ^ k := by
      rw [Finset.card_univ]
      simp [Fintype.card_fun]
    rw [← hcardu, hsum, Finset.sum_congr rfl hconst, Finset.sum_const, ht6,
      smul_eq_mul]
  have h3 : (3 : Nat) ∣ 2 ^ k := ⟨2 * c, by omega⟩
  have := Nat.Prime.dvd_of_dvd_pow Nat.prime_three h3
  omega
